import Mathlib

/-!
Verification of the Resume Workshop app's text pipeline

A shallow embedding, in Lean 4, of the pure string-processing functions of
`app.py` (the Streamlit resume-workshop application), together with proofs
and refutations of the specification's claims about them.

Conventions of the embedding:

* Python `str` values are modelled as `String` / `List Char`; all functions
  are written over `List Char` with `String` wrappers carrying the source
  names.
* Python's `\s`, `\d`, `\w` character classes and `str.strip` / `str.lower`
  / `str.title` are modelled on their ASCII fragment, which covers every
  constant string in the source and every input used in the theorems below.
* Each regular expression of the source is embedded as a specialised
  matcher implementing Python's leftmost, alternation-ordered, greedy
  backtracking semantics for that particular pattern.
-/

namespace ResumeApp

/-! ## Python string primitives (ASCII fragment) -/

/-- ASCII fragment of Python's `\s` class / `str.strip` whitespace. -/
def pyWs (c : Char) : Bool :=
  c = ' ' || c = '\t' || c = '\n' || c = '\r' || c = '\x0b' || c = '\x0c'

/-- Python's `\d` (ASCII fragment): decimal digits. -/
def pyDigit (c : Char) : Bool :=
  '0' ≤ c && c ≤ '9'

/-- ASCII letters. -/
def pyAlpha (c : Char) : Bool :=
  ('a' ≤ c && c ≤ 'z') || ('A' ≤ c && c ≤ 'Z')

/-- Python's `\w` class (ASCII fragment): letters, digits, underscore. -/
def pyWord (c : Char) : Bool :=
  pyAlpha c || pyDigit c || c = '_'

/-- ASCII `str.lower` on one character. -/
def pyLowerC (c : Char) : Char :=
  if 'A' ≤ c && c ≤ 'Z' then Char.ofNat (c.toNat + 32) else c

/-- ASCII `str.upper` on one character. -/
def pyUpperC (c : Char) : Char :=
  if 'a' ≤ c && c ≤ 'z' then Char.ofNat (c.toNat - 32) else c

/-- Embeds `str.lower`. -/
def pyLower (l : List Char) : List Char := l.map pyLowerC

/-- Drop the trailing run of characters satisfying `p`. -/
def dropTrailIf (p : Char → Bool) : List Char → List Char
  | [] => []
  | c :: t =>
    match dropTrailIf p t with
    | [] => if p c then [] else [c]
    | r => c :: r

/-- Embeds `str.strip()`: drop leading and trailing whitespace. -/
def pyStrip (l : List Char) : List Char :=
  dropTrailIf pyWs (l.dropWhile pyWs)

/-- Embeds `str.rstrip()`: drop trailing whitespace only. -/
def pyRStrip (l : List Char) : List Char :=
  dropTrailIf pyWs l

/-- Embeds `str.strip(chars)` for a single strip character. -/
def pyStripChar (x : Char) (l : List Char) : List Char :=
  dropTrailIf (· = x) (l.dropWhile (· = x))

/-- Embeds `str.title()` (ASCII fragment): uppercase each letter that follows a
non-letter, lowercase every other letter. -/
def pyTitleAux (prevAlpha : Bool) : List Char → List Char
  | [] => []
  | c :: t =>
    (if pyAlpha c then (if prevAlpha then pyLowerC c else pyUpperC c) else c)
      :: pyTitleAux (pyAlpha c) t

def pyTitle (l : List Char) : List Char := pyTitleAux false l

/-- Embeds `str.splitlines()` for `\n`, `\r\n` and `\r` terminators: `""` gives no
lines; a trailing terminator does not create a final empty line. -/
def pySplitlinesAux (acc : List Char) : List Char → List (List Char)
  | [] => if acc.isEmpty then [] else [acc.reverse]
  | '\r' :: '\n' :: t => acc.reverse :: pySplitlinesAux [] t
  | '\r' :: t => acc.reverse :: pySplitlinesAux [] t
  | '\n' :: t => acc.reverse :: pySplitlinesAux [] t
  | c :: t => pySplitlinesAux (c :: acc) t

def pySplitlines (l : List Char) : List (List Char) := pySplitlinesAux [] l

/-- Embeds `sep.join(parts)` for a one-character separator. -/
def joinWith (sep : Char) : List (List Char) → List Char
  | [] => []
  | [x] => x
  | x :: y :: t => x ++ sep :: joinWith sep (y :: t)

/-- Embeds `s.split(sep)` for a one-character separator (keeps empty parts). -/
def splitChar (sep : Char) (l : List Char) : List (List Char) :=
  match l with
  | [] => [[]]
  | c :: t =>
    match splitChar sep t with
    | [] => if c = sep then [[], []] else [[c]]
    | p :: ps => if c = sep then [] :: p :: ps else (c :: p) :: ps

/-- Split into the maximal runs avoiding the separator class `sep`,
dropping empty segments (all uses filter out empty parts afterwards
anyway, so this agrees with Python's `re.split` + emptiness filter). -/
def splitRunsAux (sep : Char → Bool) (cur : List Char) : List Char → List (List Char)
  | [] => if cur.isEmpty then [] else [cur.reverse]
  | c :: t =>
    if sep c then
      if cur.isEmpty then splitRunsAux sep [] t
      else cur.reverse :: splitRunsAux sep [] t
    else splitRunsAux sep (c :: cur) t

/-- Embeds `s.split()` / `re.split(r"\s+", ...)` with empties removed: the
whitespace-separated words of `l`. -/
def splitWs (l : List Char) : List (List Char) := splitRunsAux pyWs [] l

/-- Python substring containment `needle in hay`. -/
def isSubstr (needle hay : List Char) : Bool :=
  match hay with
  | [] => needle.isEmpty
  | _ :: t => needle.isPrefixOf hay || isSubstr needle t

/-- Lexicographic (code-point) comparison: Python `<` on `str`. -/
def lexLt : List Char → List Char → Bool
  | [], [] => false
  | [], _ :: _ => true
  | _ :: _, [] => false
  | a :: s, b :: t =>
    if a.toNat < b.toNat then true
    else if b.toNat < a.toNat then false
    else lexLt s t

/-- Embeds `re.sub(r"\s+", " ", ·)`: each maximal whitespace run becomes one
space.  `prevWs` records whether the previous character was whitespace
(i.e. whether we are inside a run whose space was already emitted). -/
def collapseWsAux (prevWs : Bool) : List Char → List Char
  | [] => []
  | c :: t =>
    if pyWs c then
      if prevWs then collapseWsAux true t else ' ' :: collapseWsAux true t
    else c :: collapseWsAux false t

def collapseWs (l : List Char) : List Char := collapseWsAux false l

/-! ## Regex combinators

A `Matcher` consumes a prefix of the input, returning the number of
characters consumed and the rest.  `mOr` tries its left alternative first,
which is Python's alternation order; the sequencing of greedy pieces below
is deterministic for the patterns embedded here (each greedy run is over a
character class disjoint from what may legally follow it), so no further
backtracking machinery is needed. -/

def Matcher : Type := List Char → Option (Nat × List Char)

/-- Case-insensitive literal (the literal is given in lowercase). -/
def mLit (w : List Char) : Matcher := fun s =>
  let rec go : List Char → List Char → Option (List Char)
    | [], r => some r
    | _ :: _, [] => none
    | c :: wt, x :: xt => if pyLowerC x = c then go wt xt else none
  (go w s).map (fun r => (w.length, r))

/-- One character satisfying `p`. -/
def mChar (p : Char → Bool) : Matcher := fun s =>
  match s with
  | [] => none
  | c :: t => if p c then some (1, t) else none

/-- Embeds `\s*` (greedy). -/
def mWs0 : Matcher := fun s =>
  some ((s.takeWhile pyWs).length, s.dropWhile pyWs)

/-- Embeds `\s+` (greedy). -/
def mWs1 : Matcher := fun s =>
  match s with
  | [] => none
  | c :: t =>
    if pyWs c then some ((t.takeWhile pyWs).length + 1, t.dropWhile pyWs)
    else none

/-- Embeds `\d+` (greedy). -/
def mDig1 : Matcher := fun s =>
  match s with
  | [] => none
  | c :: t =>
    if pyDigit c then some ((t.takeWhile pyDigit).length + 1, t.dropWhile pyDigit)
    else none

def mSeq (a b : Matcher) : Matcher := fun s =>
  (a s).bind fun nr => (b nr.2).map fun mr => (nr.1 + mr.1, mr.2)

def mOr (a b : Matcher) : Matcher := fun s => (a s).orElse fun _ => b s

/-- Embeds `\b` at the current position given that the previous character is a word
character (consumes nothing). -/
def mEndWb : Matcher := fun s =>
  match s with
  | [] => some (0, [])
  | c :: t => if pyWord c then none else some (0, c :: t)

/-- Trivial matcher (an empty alternative). -/
def mEps : Matcher := fun s => some (0, s)

/-! ## Denylist scrub (`UNION_BANS` / `BANNED_RE` / `strip_banned`)

`BANNED_RE` is the case-insensitive alternation of the nine `UNION_BANS`
patterns.  Every pattern starts and ends with a word character, so the
leading `\b` holds exactly when the previous character is not a word
character, and the trailing `\b` is `mEndWb`. -/

/-- Embeds `[-\s]` (the optional separator inside `non[-\s]?union` etc.). -/
def sepBan (c : Char) : Bool := c = '-' || pyWs c

/-- Embeds `\bunion\b` (after the leading boundary has been checked). -/
def brUnion : Matcher := mSeq (mLit "union".data) mEndWb

/-- Embeds `\bnon[-\s]?union\b`. -/
def brNonUnion : Matcher :=
  mSeq (mLit "non".data)
    (mOr (mSeq (mChar sepBan) (mSeq (mLit "union".data) mEndWb))
         (mSeq (mLit "union".data) mEndWb))

/-- Embeds `\bibew\b`. -/
def brIbew : Matcher := mSeq (mLit "ibew".data) mEndWb

/-- Embeds `\blocal\s*\d+\b`. -/
def brLocal : Matcher := mSeq (mLit "local".data) (mSeq mWs0 (mSeq mDig1 mEndWb))

/-- Embeds `\binside\s*wire(man|men)?\b`. -/
def brInsideWire : Matcher :=
  mSeq (mLit "inside".data)
    (mSeq mWs0
      (mSeq (mLit "wire".data)
        (mOr (mSeq (mLit "man".data) mEndWb)
          (mOr (mSeq (mLit "men".data) mEndWb) mEndWb))))

/-- Embeds `\blow[-\s]?voltage\b`. -/
def brLowVoltage : Matcher :=
  mSeq (mLit "low".data)
    (mOr (mSeq (mChar sepBan) (mSeq (mLit "voltage".data) mEndWb))
         (mSeq (mLit "voltage".data) mEndWb))

/-- Embeds `\bsound\s+and\s+communication(s)?\b`. -/
def brSoundComm : Matcher :=
  mSeq (mLit "sound".data)
    (mSeq mWs1
      (mSeq (mLit "and".data)
        (mSeq mWs1
          (mSeq (mLit "communication".data)
            (mOr (mSeq (mLit "s".data) mEndWb) mEndWb)))))

/-- Embeds `\bneca\b`. -/
def brNeca : Matcher := mSeq (mLit "neca".data) mEndWb

/-- Embeds `\bopen[-\s]?shop\b`. -/
def brOpenShop : Matcher :=
  mSeq (mLit "open".data)
    (mOr (mSeq (mChar sepBan) (mSeq (mLit "shop".data) mEndWb))
         (mSeq (mLit "shop".data) mEndWb))

/-- Embeds `BANNED_RE` tried at one position: the nine alternatives in the order of
`UNION_BANS`.  `prevWord` says whether the character before this position is
a word character (false at the start of the string); since every alternative
begins with a letter, the leading `\b` fails exactly when `prevWord`. -/
def bannedMatchAt (prevWord : Bool) (s : List Char) : Option Nat :=
  if prevWord then none
  else
    ((mOr brUnion (mOr brNonUnion (mOr brIbew (mOr brLocal
      (mOr brInsideWire (mOr brLowVoltage (mOr brSoundComm
        (mOr brNeca brOpenShop)))))))) s).map (·.1)

/-- Embeds `BANNED_RE.sub("", ·)`: delete every leftmost non-overlapping match in a
single left-to-right pass.  Every alternative of `BANNED_RE` consumes at
least one character and ends with a word character, so after a deletion the
scan resumes past the match with `prevWord = true`; the first argument
counts match characters still to be deleted. -/
def bannedSubAux : Nat → Bool → List Char → List Char
  | _, _, [] => []
  | k + 1, _, _ :: t => bannedSubAux k true t
  | 0, prevWord, c :: t =>
    match bannedMatchAt prevWord (c :: t) with
    | some n => bannedSubAux (n - 1) true t
    | none => c :: bannedSubAux 0 (pyWord c) t

def bannedSub (prevWord : Bool) (s : List Char) : List Char :=
  bannedSubAux 0 prevWord s

/-- Embeds `BANNED_RE.search(·) is not None`. -/
def bannedSearch (prevWord : Bool) (s : List Char) : Bool :=
  match s with
  | [] => false
  | c :: t => (bannedMatchAt prevWord (c :: t)).isSome || bannedSearch (pyWord c) t

/-! ## Basic cleaners (`app.py` lines 62–94) -/

/-- Embeds `strip_banned`: `BANNED_RE.sub("", text or "").strip()`. -/
def strip_banned (text : String) : String :=
  String.mk (pyStrip (bannedSub false text.data))

/-- Embeds `norm_ws`: strip, then collapse whitespace runs to single spaces. -/
def norm_ws (s : String) : String :=
  String.mk (collapseWs (pyStrip s.data))

/-- Embeds `cap_first`: `norm_ws`, then uppercase the first character. -/
def cap_first (s : String) : String :=
  match collapseWs (pyStrip s.data) with
  | [] => ""
  | c :: t => String.mk (pyUpperC c :: t)

/-- Embeds `clean_phone`: keep the digit subsequence (`PHONE_DIGITS.sub("", s)`),
drop a leading `1` from an 11-digit result, format a 10-digit result as
`(NNN) NNN-NNNN`, otherwise return `norm_ws s`. -/
def phoneFmt (d : List Char) : List Char :=
  '(' :: d.take 3 ++ ')' :: ' ' :: ((d.drop 3).take 3 ++ '-' :: d.drop 6)

def clean_phone (s : String) : String :=
  let digits := s.data.filter pyDigit
  let digits := if digits.length = 11 ∧ digits.head? = some '1'
                then digits.tail else digits
  if digits.length = 10 then String.mk (phoneFmt digits) else norm_ws s

/-- Embeds `clean_email`: `(s or "").strip().lower()`. -/
def clean_email (s : String) : String :=
  String.mk (pyLower (pyStrip s.data))

/-! ## Skills canon and normalization (`app.py` lines 178–227) -/

def MAX_SKILLS : Nat := 12

def SKILL_CANON : List String :=
  ["Problem-solving", "Critical thinking", "Attention to detail", "Time management",
   "Teamwork & collaboration", "Adaptability & willingness to learn", "Safety awareness",
   "Conflict resolution", "Customer service", "Leadership", "Reading blueprints & specs",
   "Hand & power tools", "Materials handling (wood/concrete/metal)", "Operating machinery",
   "Trades math & measurement", "Regulatory compliance", "Physical stamina & dexterity"]

/-- Embeds `_SKILL_SYNONYMS`, as an association list in the source's key order. -/
def SKILL_SYNONYMS : List (String × String) :=
  [("problem solving", "Problem-solving"), ("problem-solving", "Problem-solving"),
   ("critical-thinking", "Critical thinking"), ("attention to details", "Attention to detail"),
   ("time-management", "Time management"), ("teamwork", "Teamwork & collaboration"),
   ("collaboration", "Teamwork & collaboration"),
   ("adaptability", "Adaptability & willingness to learn"),
   ("willingness to learn", "Adaptability & willingness to learn"),
   ("safety", "Safety awareness"),
   ("customer service skills", "Customer service"), ("leadership skills", "Leadership"),
   ("blueprints", "Reading blueprints & specs"), ("tools", "Hand & power tools"),
   ("machinery", "Operating machinery"), ("math", "Trades math & measurement"),
   ("measurements", "Trades math & measurement"), ("compliance", "Regulatory compliance"),
   ("stamina", "Physical stamina & dexterity"), ("forklift", "Operating machinery")]

/-- Embeds `dict.get` on an association list. -/
def alistGet (k : String) : List (String × String) → Option String
  | [] => none
  | (k', v) :: t => if k = k' then some v else alistGet k t

/-- Embeds `normalize_skill_label`: strip, look the lowercased
whitespace-collapsed key up in the synonym table, otherwise
whitespace-collapse, strip and title-case the label. -/
def normalize_skill_label (s : String) : String :=
  let base := pyStrip s.data
  let key := String.mk (collapseWs (pyLower base))
  match alistGet key SKILL_SYNONYMS with
  | some mapped => mapped
  | none => String.mk (pyTitle (pyStrip (collapseWs base)))

/-! ## Header regexes (`EMAIL_RE`, `PHONE_RE`, `CITY_STATE_RE`) -/

/-- Embeds `[A-Z0-9._%+-]` with `re.I`. -/
def emailLocalC (c : Char) : Bool :=
  pyAlpha c || pyDigit c || c = '.' || c = '_' || c = '%' || c = '+' || c = '-'

/-- Embeds `[A-Z0-9.-]` with `re.I`. -/
def emailDomC (c : Char) : Bool :=
  pyAlpha c || pyDigit c || c = '.' || c = '-'

/-- Backtracking tail of `EMAIL_RE`: the greedy `[A-Z0-9.-]+` run is given
back one character at a time (from `i` characters consumed downward) until
`\.[A-Z]{2,}` matches what follows. -/
def emailTld (rest : List Char) : Nat → Option Nat
  | 0 => none
  | i + 1 =>
    match rest.drop (i + 1) with
    | '.' :: after =>
      let letters := (after.takeWhile pyAlpha).length
      if 2 ≤ letters then some ((i + 1) + 1 + letters) else emailTld rest i
    | _ => emailTld rest i

/-- Embeds `EMAIL_RE` (`[A-Z0-9._%+-]+@[A-Z0-9.-]+\.[A-Z]{2,}`, `re.I`) tried at
one position; returns the length of the match. -/
def emailMatchAt (s : List Char) : Option Nat :=
  let loc := (s.takeWhile emailLocalC).length
  if loc = 0 then none
  else
    match s.drop loc with
    | '@' :: rest =>
      let dom := (rest.takeWhile emailDomC).length
      (emailTld rest dom).map (fun n => loc + 1 + n)
    | _ => none

/-- Embeds `EMAIL_RE.search`: leftmost match, returned as `group(0)`. -/
def emailSearch : List Char → Option (List Char)
  | [] => none
  | c :: t =>
    match emailMatchAt (c :: t) with
    | some n => some ((c :: t).take n)
    | none => emailSearch t

def emailFound (l : List Char) : Bool := (emailSearch l).isSome

/-- Embeds `[\s\-\.]`. -/
def sepPh (c : Char) : Bool := pyWs c || c = '-' || c = '.'

/-- Exactly `n` characters satisfying `p` (`\d{3}` etc.). -/
def mCharsN (p : Char → Bool) : Nat → Matcher
  | 0 => mEps
  | n + 1 => mSeq (mChar p) (mCharsN p n)

/-- Embeds `PHONE_RE`: `(\+?1[\s\-\.])?\(?\d{3}\)?[\s\-\.]?\d{3}[\s\-\.]?\d{4}`.
The optional one-character pieces are class-disjoint from what follows
them, so committing to a present optional is Python-faithful; the leading
`(\+?1[\s\-\.])?` group overlaps `\d{3}` and is therefore given full
alternative-order backtracking via `mOr`. -/
def phoneCore : Matcher :=
  mSeq (mOr (mChar (· = '(')) mEps)
    (mSeq (mCharsN pyDigit 3)
      (mSeq (mOr (mChar (· = ')')) mEps)
        (mSeq (mOr (mChar sepPh) mEps)
          (mSeq (mCharsN pyDigit 3)
            (mSeq (mOr (mChar sepPh) mEps) (mCharsN pyDigit 4))))))

def phonePat : Matcher :=
  mOr
    (mSeq (mOr (mChar (· = '+')) mEps)
      (mSeq (mChar (· = '1')) (mSeq (mChar sepPh) phoneCore)))
    phoneCore

/-- Embeds `PHONE_RE.search`: leftmost match as `group(0)`. -/
def phoneSearch : List Char → Option (List Char)
  | [] => none
  | c :: t =>
    match phonePat (c :: t) with
    | some (n, _) => some ((c :: t).take n)
    | none => phoneSearch t

def phoneFound (l : List Char) : Bool := (phoneSearch l).isSome

/-- Embeds `[A-Za-z .'-]`. -/
def cityClass (c : Char) : Bool :=
  pyAlpha c || c = ' ' || c = '.' || c = '\'' || c = '-'

/-- Embeds `CITY_STATE_RE` (`\b([A-Za-z .'-]{2,}),\s*([A-Za-z]{2})\b`) tried at one
position (`prevWord`: the preceding character is a word character).  The
greedy `{2,}` run must be maximal because `,` is not in the class, so the
match is deterministic; returns the two groups. -/
def csMatchAt (prevWord : Bool) (s : List Char) : Option (List Char × List Char) :=
  let run := s.takeWhile cityClass
  match run with
  | [] => none
  | c0 :: _ =>
    if prevWord = pyWord c0 then none
    else if run.length < 2 then none
    else
      match s.drop run.length with
      | ',' :: rest =>
        match rest.dropWhile pyWs with
        | a :: b :: rest3 =>
          if pyAlpha a && pyAlpha b &&
              (match rest3 with | [] => true | d :: _ => !pyWord d) then
            some (run, [a, b])
          else none
        | _ => none
      | _ => none

/-- Embeds `CITY_STATE_RE.search`: leftmost match, returning the groups. -/
def csSearch (prevWord : Bool) : List Char → Option (List Char × List Char)
  | [] => none
  | c :: t =>
    match csMatchAt prevWord (c :: t) with
    | some r => some r
    | none => csSearch (pyWord c) t

/-- Embeds `CITY_STATE_RE.fullmatch`: the whole token is `city, ST`. -/
def csFullmatch (tok : List Char) : Bool :=
  let run := tok.takeWhile cityClass
  match run with
  | [] => false
  | c0 :: _ =>
    if !pyWord c0 then false
    else if run.length < 2 then false
    else
      match tok.drop run.length with
      | ',' :: rest =>
        match rest.dropWhile pyWs with
        | [a, b] => pyAlpha a && pyAlpha b
        | _ => false
      | _ => false

/-- One alternative of a `\b(w1|w2|...)\b` search matching at this
position (the words start with letters, so the leading `\b` requires a
non-word predecessor). -/
def wordsHitAt (ws : List (List Char)) (s : List Char) : Bool :=
  ws.any (fun w =>
    match mLit w s with
    | some (_, rest) =>
      match rest with
      | [] => true
      | c :: _ => !pyWord c
    | none => false)

/-- Embeds `re.search(r"\b(w1|...)\b", line, re.I) is not None`. -/
def searchWordsAux (ws : List (List Char)) (prevWord : Bool) : List Char → Bool
  | [] => false
  | c :: t => (!prevWord && wordsHitAt ws (c :: t)) || searchWordsAux ws (pyWord c) t

def searchWords (ws : List (List Char)) (l : List Char) : Bool :=
  searchWordsAux ws false l

/-! ## `parse_header` (`app.py` lines 407–462) -/

/-- Embeds `[•·–—\-•/]` (the separator class normalised to `|` in `sep_norm`). -/
def sepCls (c : Char) : Bool :=
  c = '•' || c = '·' || c = '–' || c = '—' || c = '-' || c = '/'

/-- Embeds `re.sub(r"[•·–—\-•/]+", "|", ·)`. -/
def sepNormAux (prevIn : Bool) : List Char → List Char
  | [] => []
  | c :: t =>
    if sepCls c then
      if prevIn then sepNormAux true t else '|' :: sepNormAux true t
    else c :: sepNormAux false t

def sepNorm (l : List Char) : List Char := sepNormAux false l

def pyIsUpper (c : Char) : Bool := 'A' ≤ c && c ≤ 'Z'

def HEADER_SECTION_WORDS : List (List Char) :=
  ["objective".data, "summary".data, "skills".data, "experience".data,
   "education".data, "certifications".data]

/-- The narrower word list of `parse_header`'s fallback branch (it omits
`certifications`). -/
def FALLBACK_SECTION_WORDS : List (List Char) :=
  ["objective".data, "summary".data, "skills".data, "experience".data,
   "education".data]

structure Header where
  Name : String
  Email : String
  Phone : String
  City : String
  State : String
deriving DecidableEq, Repr

/-- The name-candidate filter of `parse_header` applied to one line of
`sep_norm`. -/
def headerCandidate (raw : List Char) : Option (List Char) :=
  let line := pyStrip (pyStripChar '|' (pyStrip raw))
  if line = [] then none
  else if emailFound line || phoneFound line then none
  else if searchWords HEADER_SECTION_WORDS line then none
  else
    let toks := splitWs line
    if 2 ≤ toks.length ∧ toks.length ≤ 4 ∧
        toks.all (fun t => !t.any pyDigit) then
      let caps := (toks.filter (fun t =>
        match t with
        | c :: _ => pyAlpha c && pyIsUpper c
        | [] => false)).length
      if 2 ≤ caps then some line else none
    else none

/-- The fallback name scan over the first 15 raw lines. -/
def headerFallbackName : List (List Char) → List Char
  | [] => []
  | l :: rest =>
    let L := pyStrip l
    if L ≠ [] ∧ ¬ emailFound L ∧ ¬ phoneFound L ∧
        ¬ searchWords FALLBACK_SECTION_WORDS L ∧
        L.any pyAlpha ∧ (splitWs L).length ≤ 4 then
      L
    else headerFallbackName rest

def parse_header (text : String) : Header :=
  if text.data = [] then ⟨"", "", "", "", ""⟩
  else
    let lines := pySplitlines text.data
    let top_block := joinWith '\n' ((lines.take 50).map pyStrip)
    let sep_norm := sepNorm top_block
    let email := (emailSearch text.data).getD []
    let phone := (phoneSearch text.data).getD []
    let cityState :=
      match csSearch false top_block with
      | some (c, st) => (c, st.map pyUpperC)
      | none =>
        match csSearch false text.data with
        | some (c, st) => (c, st.map pyUpperC)
        | none => ([], [])
    let candidates := (splitChar '\n' sep_norm).filterMap headerCandidate
    let name :=
      match candidates with
      | n :: _ => n
      | [] => headerFallbackName (lines.take 15)
    { Name := cap_first (String.mk name)
      Email := clean_email (String.mk email)
      Phone := clean_phone (String.mk phone)
      City := cap_first (String.mk cityState.1)
      State := String.mk (pyStrip cityState.2) }

/-! ## `DATE_RANGE_RE`

`(?P<start>(?:\d{4}|\w{3,9}\s+\d{4}))\s*(?:–|-|to|until|through|—)\s*`
`(?P<end>(?:Present|Current|\d{4}|\w{3,9}\s+\d{4}))`, `re.I`.

The `\w{3,9}` greedy run must consume a whole maximal word run (a shorter
prefix is followed by a word character, not `\s`), the separator literals
are pairwise prefix-incompatible at a given position, and the `\s*`/`\s+`
runs are class-disjoint from their successors — so the only real
backtracking is falling from the `\d{4}` start alternative to the
`\w{3,9}\s+\d{4}` one, which `dmStart` implements with a continuation. -/

/-- Exactly four digits. -/
def digits4 : List Char → Option (List Char)
  | a :: b :: c :: d :: r =>
    if pyDigit a && pyDigit b && pyDigit c && pyDigit d then some r else none
  | _ => none

/-- Embeds `\w{3,9}\s+\d{4}` (deterministic, see above); calls `k` on the rest. -/
def dmWordAlt {α : Type} (s : List Char) (k : List Char → Option α) : Option (Nat × α) :=
  let run := (s.takeWhile pyWord).length
  if 3 ≤ run ∧ run ≤ 9 then
    let rest := s.drop run
    let w := (rest.takeWhile pyWs).length
    if 1 ≤ w then
      match digits4 (rest.drop w) with
      | some r2 => (k r2).map (fun a => (run + w + 4, a))
      | none => none
    else none
  else none

/-- The `start` group: `\d{4}` first, falling back to `\w{3,9}\s+\d{4}`
when the continuation fails (Python's alternation backtracking). -/
def dmStart {α : Type} (s : List Char) (k : List Char → Option α) : Option (Nat × α) :=
  match digits4 s with
  | some r =>
    match k r with
    | some a => some (4, a)
    | none => dmWordAlt s k
  | none => dmWordAlt s k

/-- Embeds `(?:–|-|to|until|through|—)` in source order. -/
def dmSep (s : List Char) : Option (Nat × List Char) :=
  (mLit "–".data s).orElse fun _ =>
  (mLit "-".data s).orElse fun _ =>
  (mLit "to".data s).orElse fun _ =>
  (mLit "until".data s).orElse fun _ =>
  (mLit "through".data s).orElse fun _ =>
  mLit "—".data s

/-- The `end` group: `Present|Current|\d{4}|\w{3,9}\s+\d{4}` (the pattern
ends here, so the first alternative that matches wins); returns its length
and text. -/
def dmEnd (s : List Char) : Option (Nat × List Char) :=
  match mLit "present".data s with
  | some (n, _) => some (n, s.take n)
  | none =>
    match mLit "current".data s with
    | some (n, _) => some (n, s.take n)
    | none =>
      match digits4 s with
      | some _ => some (4, s.take 4)
      | none =>
        match dmWordAlt s (fun r => some r) with
        | some (n, _) => some (n, s.take n)
        | none => none

/-- Embeds `DATE_RANGE_RE` tried at one position: length plus the `start` and
`end` groups. -/
def dmMatchAt (s : List Char) : Option (Nat × List Char × List Char) :=
  match dmStart s (fun r1 =>
      let w1 := (r1.takeWhile pyWs).length
      (dmSep (r1.drop w1)).bind fun nr =>
        let r2 := (r1.drop w1).drop nr.1
        let w2 := (r2.takeWhile pyWs).length
        (dmEnd (r2.drop w2)).map fun ne => (w1 + nr.1 + w2 + ne.1, ne.2)) with
  | some (ns, na, eg) => some (ns + na, s.take ns, eg)
  | none => none

/-- Embeds `DATE_RANGE_RE.search`: leftmost match, returning the groups. -/
def dmSearch : List Char → Option (List Char × List Char)
  | [] => none
  | c :: t =>
    match dmMatchAt (c :: t) with
    | some (_, sg, eg) => some (sg, eg)
    | none => dmSearch t

def dmFound (l : List Char) : Bool := (dmSearch l).isSome

def csFound (l : List Char) : Bool := (csSearch false l).isSome

/-! ## `parse_dates`, `clean_bullet`, `split_list` (`app.py` lines 82–104) -/

/-- Embeds `raw.split(sep, 1)`: the parts before and after the first `sep`. -/
def splitFirst (sep : Char) (l : List Char) : List Char × List Char :=
  (l.takeWhile (· != sep), (l.dropWhile (· != sep)).tail)

def parse_dates (raw : String) : String × String :=
  let r := collapseWs (pyStrip raw.data)
  match dmSearch r with
  | some (sg, eg) => (String.mk sg, String.mk eg)
  | none =>
    if '–' ∈ r ∨ '-' ∈ r ∨ '—' ∈ r then
      let sep := if '–' ∈ r then '–' else if '—' ∈ r then '—' else '-'
      let bits := splitFirst sep r
      (String.mk (pyStrip bits.1), String.mk (pyStrip bits.2))
    else if r ≠ [] then (String.mk r, "") else ("", "")

/-- Embeds `[•\-•]` (`•` is `•`). -/
def bulletC (c : Char) : Bool := c = '•' || c = '-'

/-- Embeds `re.sub(r"^[•\-•]+\s*", "", ·)` (also used for the job-bullet
variant `^[•\-•\-]+\s*`, whose class is the same set). -/
def stripBulletLead (l : List Char) : List Char :=
  match l with
  | c :: _ => if bulletC c then (l.dropWhile bulletC).dropWhile pyWs else l
  | [] => l

/-- Embeds `FILLER_LEADS.sub("", ·)`:
`^\s*(responsible for|duties included|tasked with|in charge of)\s*:?\s*`,
`re.I`; if the phrase alternation fails the string is unchanged. -/
def fillerSub (l : List Char) : List Char :=
  let r := l.dropWhile pyWs
  match (mLit "responsible for".data r).orElse (fun _ =>
        (mLit "duties included".data r).orElse (fun _ =>
        (mLit "tasked with".data r).orElse (fun _ =>
        mLit "in charge of".data r))) with
  | some (_, rest) =>
    let rest2 := rest.dropWhile pyWs
    match rest2 with
    | ':' :: rr => rr.dropWhile pyWs
    | _ => rest2
  | none => l

/-- Embeds `clean_bullet`: normalise whitespace, strip a leading bullet run and a
filler lead, strip trailing dots, capitalise, and cap at 24 words. -/
def clean_bullet (s : String) : String :=
  let s1 := collapseWs (pyStrip s.data)
  let s2 := stripBulletLead s1
  let s3 := fillerSub s2
  let s4 := dropTrailIf (· = '.') s3
  let s5 := cap_first (String.mk s4)
  let words := splitWs s5.data
  if 24 < words.length then String.mk (joinWith ' ' (words.take 24)) else s5

/-- Embeds `split_list`: split on `[,\n;•]+`, strip ` •\t` from each part, drop
empties. -/
def splitListSep (c : Char) : Bool := c = ',' || c = '\n' || c = ';' || c = '•'

def splitListStripC (c : Char) : Bool := c = ' ' || c = '•' || c = '\t'

def splitListParts (l : List Char) : List (List Char) :=
  splitRunsAux splitListSep [] l

def split_list (raw : String) : List String :=
  ((splitListParts raw.data).map fun p =>
    dropTrailIf splitListStripC (p.dropWhile splitListStripC)).filterMap
    (fun p => if p = [] then none else some (String.mk p))

/-! ## `parse_jobs` (`app.py` lines 464–539) -/

/-- Embeds `re.split(r"\s*\|\s*|\s{2,}| — | – | — ", head)`: one alternative tried
at one position (returning the match length). -/
def headSplitMatchAt (s : List Char) : Option Nat :=
  let w := (s.takeWhile pyWs).length
  match s.drop w with
  | '|' :: r => some (w + 1 + (r.takeWhile pyWs).length)
  | _ =>
    if 2 ≤ w then some w
    else
      match s with
      | ' ' :: '—' :: ' ' :: _ => some 3
      | ' ' :: '–' :: ' ' :: _ => some 3
      | _ => none

/-- Embeds `re.split` scanning (keeps empty parts, like Python); the first
argument counts separator-match characters still to be consumed. -/
def pySplitReAux : Nat → List Char → List Char → List (List Char)
  | _, cur, [] => [cur.reverse]
  | k + 1, cur, _ :: t => pySplitReAux k cur t
  | 0, cur, c :: t =>
    match headSplitMatchAt (c :: t) with
    | some n => cur.reverse :: pySplitReAux (n - 1) [] t
    | none => pySplitReAux 0 (c :: cur) t

def headSplit (l : List Char) : List (List Char) := pySplitReAux 0 [] l

/-- Embeds `[A-Za-z0-9 .'\-&]`. -/
def companyC (c : Char) : Bool :=
  pyAlpha c || pyDigit c || c = ' ' || c = '.' || c = '\'' || c = '-' || c = '&'

/-- Embeds `_safe_company_token`. -/
def safeCompanyToken (tok : List Char) : Bool :=
  if csFullmatch tok then false
  else 2 ≤ tok.length && tok.all companyC

/-- Embeds `^\s*(summary|objective|skills|certifications|education)\s*$`, `re.I`
(`re.match` with an end anchor, i.e. the line is exactly one section
word). -/
def SECTION_JOB_WORDS : List (List Char) :=
  ["summary".data, "objective".data, "skills".data, "certifications".data,
   "education".data]

def sectionExact (l : List Char) : Bool :=
  let r := l.dropWhile pyWs
  SECTION_JOB_WORDS.any fun w =>
    match mLit w r with
    | some (_, rest) => (rest.dropWhile pyWs).isEmpty
    | none => false

/-- Embeds `re.match(r"^[•\-•]\s+", ln)`. -/
def bulletStart (ln : List Char) : Bool :=
  match ln with
  | c :: d :: _ => bulletC c && pyWs d
  | _ => false

structure Job where
  company : String
  role : String
  city : String
  startDate : String
  endDate : String
  bullets : List String
deriving DecidableEq, Repr

/-- The bullet-collecting inner `while` of `parse_jobs`; returns the
bullets and the final scan index `j`. -/
def bulletsLoop (lines : List (List Char)) (j : Nat) (bullets : List String) :
    List String × Nat :=
  if h : j < lines.length then
    let raw := lines.getD j []
    let ln := pyStrip raw
    if ln = [] then
      if bullets ≠ [] then (bullets, j) else bulletsLoop lines (j + 1) bullets
    else if sectionExact ln then (bullets, j)
    else if bulletStart ln || (match raw with | '\t' :: _ => true | _ => false) then
      let bullets' := bullets ++ [clean_bullet (String.mk (stripBulletLead ln))]
      if 4 ≤ bullets'.length then (bullets', j) else bulletsLoop lines (j + 1) bullets'
    else if dmFound ln || csFound ln then bulletsLoop lines (j + 1) bullets
    else if (splitWs ln).length ≤ 4 ∧ bullets ≠ [] then (bullets, j)
    else bulletsLoop lines (j + 1) bullets
  else (bullets, j)
termination_by lines.length - j

/-- The outer `while` of `parse_jobs`. -/
def jobsLoop (lines : List (List Char)) (i : Nat) (out : List Job) : List Job :=
  if h : i < lines.length then
    if 3 ≤ out.length then out
    else
      let head := pyStrip (lines.getD i [])
      if head = [] then jobsLoop lines (i + 1) out
      else if sectionExact head then jobsLoop lines (i + 1) out
      else
        let window := joinWith ' ' ((lines.drop i).take 3)
        let parts := headSplit head
        let dates :=
          match dmSearch window with
          | some (sg, eg) => sg ++ ' ' :: '–' :: ' ' :: eg
          | none => []
        let cityst :=
          match csSearch false window with
          | some (c, st) => c ++ ',' :: ' ' :: st.map pyUpperC
          | none => []
        let roleCompany :=
          match parts with
          | p0 :: p1 :: _ =>
            let cand_role := pyStrip p0
            let cand_co := pyStrip p1
            if safeCompanyToken cand_co then (cand_role, cand_co)
            else if safeCompanyToken cand_role ∧ ¬ safeCompanyToken cand_co then
              (cand_co, cand_role)
            else (cand_role, [])
          | _ => (head, [])
        let role := roleCompany.1
        let company0 := roleCompany.2
        let bj := bulletsLoop lines (i + 1) []
        let bullets := bj.1
        let company := if company0 ≠ [] ∧ csFullmatch company0 then [] else company0
        let out' :=
          if company ≠ [] ∨ role ≠ [] ∨ cityst ≠ [] ∨ dates ≠ [] ∨ bullets ≠ [] then
            out ++ [{ company := cap_first (String.mk company)
                      role := cap_first (String.mk role)
                      city := cap_first (String.mk cityst)
                      startDate := if dates ≠ [] then (parse_dates (String.mk dates)).1 else ""
                      endDate := if dates ≠ [] then (parse_dates (String.mk dates)).2 else ""
                      bullets := bullets }]
          else out
        jobsLoop lines (max bj.2 (i + 1)) out'
  else out
termination_by lines.length - i
decreasing_by
  all_goals omega

def parse_jobs (text : String) : List Job :=
  let lines := (pySplitlines text.data).map pyRStrip
  (jobsLoop lines 0 []).take 3

/-! ## `parse_education` (`app.py` lines 541–558) -/

structure School where
  school : String
  credential : String
  year : String
  details : String
deriving DecidableEq, Repr

def EDU_HIT_WORDS : List String :=
  ["high school", "ged", "college", "university", "program", "certificate", "diploma"]

def eduHit (l : List Char) : Bool :=
  EDU_HIT_WORDS.any fun w => isSubstr w.data (pyLower l)

/-- Embeds `\b(20\d{2}|19\d{2})\b` tried at one position. -/
def yearAt (prevWord : Bool) (s : List Char) : Bool :=
  match s with
  | a :: b :: c :: d :: r =>
    !prevWord && ((a = '2' && b = '0') || (a = '1' && b = '9')) &&
      pyDigit c && pyDigit d &&
      (match r with | [] => true | e :: _ => !pyWord e)
  | _ => false

def yearSearchAux (prevWord : Bool) : List Char → Bool
  | [] => false
  | c :: t => yearAt prevWord (c :: t) || yearSearchAux (pyWord c) t

def yearFound (l : List Char) : Bool := yearSearchAux false l

def EDU_CRED_WORDS : List String :=
  ["diploma", "degree", "certificate", "ged", "program"]

/-- One education entry: scan the 4-line lookahead window for a year (last
hit wins), a city/state (last hit wins) and a credential (first hit
wins). -/
def eduEntry (l : List Char) (window : List (List Char)) : School :=
  let folded := window.foldl
    (fun (acc : List Char × List Char × List Char) la =>
      let year := if yearFound la then pyStrip la else acc.1
      let details :=
        match csSearch false la with
        | some (c, st) => c ++ ',' :: ' ' :: st.map pyUpperC
        | none => acc.2.1
      let cred :=
        if (EDU_CRED_WORDS.any fun w => isSubstr w.data (pyLower la)) ∧ acc.2.2 = [] then
          (cap_first (String.mk (pyStrip la))).data
        else acc.2.2
      (year, details, cred))
    ([], [], [])
  { school := cap_first (String.mk l)
    credential := String.mk folded.2.2
    year := String.mk folded.1
    details := String.mk folded.2.1 }

def eduLoop : List (List Char) → List School → List School
  | [], out => out
  | l :: rest, out =>
    if 2 ≤ out.length then out
    else if eduHit l then eduLoop rest (out ++ [eduEntry l (rest.take 4)])
    else eduLoop rest out

def parse_education (text : String) : List School :=
  let lines := (pySplitlines text.data).map pyStrip
  (eduLoop lines []).take 2

/-! ## `parse_certs` (`app.py` lines 560–577) -/

def CERT_KEYWORDS : List String :=
  ["osha", "forklift", "flagger", "cpr", "first aid", "hazwoper",
   "twic", "nccer", "confined space", "ppe", "aerial lift", "traffic control"]

def certLabel (k : String) : String :=
  if k = "osha" then "OSHA-10"
  else if k = "first aid" then "First Aid"
  else if k = "aerial lift" then "Aerial Lift"
  else String.mk (pyTitle k.data)

/-- Embeds `set.add`. -/
def addSet (x : String) (acc : List String) : List String :=
  if x ∈ acc then acc else acc ++ [x]

/-- Ascending insertion by code-point order (Python `sorted` on a set of
distinct strings). -/
def insLex (a : String) : List String → List String
  | [] => [a]
  | b :: t => if lexLt a.data b.data then a :: b :: t else b :: insLex a t

def sortStrs (l : List String) : List String := l.foldr insLex []

def parse_certs (text : String) : List String :=
  let low := pyLower text.data
  let found := CERT_KEYWORDS.foldl
    (fun acc k => if isSubstr k.data low then addSet (certLabel k) acc else acc) []
  let found := (pySplitlines text.data).foldl
    (fun acc line =>
      let acc := if isSubstr "flagger".data (pyLower line) then addSet "Flagger" acc else acc
      let acc := if isSubstr "forklift".data (pyLower line) then addSet "Forklift" acc else acc
      if searchWords ["cpr".data] line then addSet "CPR" acc else acc)
    found
  sortStrs found

/-! ## Skill mining (`app.py` lines 198–345) -/

/-- Embeds `TRANSFERABLE_KEYWORDS` in the source's insertion order. -/
def TRANSFERABLE_KEYWORDS : List (String × String) :=
  [("problem", "Problem-solving"), ("solve", "Problem-solving"),
   ("troubleshoot", "Problem-solving"),
   ("analyz", "Critical thinking"), ("priorit", "Time management"),
   ("deadline", "Time management"),
   ("detail", "Attention to detail"), ("team", "Teamwork & collaboration"),
   ("collabor", "Teamwork & collaboration"),
   ("adapt", "Adaptability & willingness to learn"),
   ("learn", "Adaptability & willingness to learn"),
   ("safety", "Safety awareness"), ("osha", "Safety awareness"),
   ("customer", "Customer service"),
   ("lead", "Leadership"), ("blueprint", "Reading blueprints & specs"),
   ("spec", "Reading blueprints & specs"),
   ("tool", "Hand & power tools"), ("drill", "Hand & power tools"),
   ("saw", "Hand & power tools"),
   ("forklift", "Operating machinery"),
   ("material", "Materials handling (wood/concrete/metal)"),
   ("machin", "Operating machinery"), ("math", "Trades math & measurement"),
   ("measure", "Trades math & measurement"),
   ("code", "Regulatory compliance"), ("permit", "Regulatory compliance"),
   ("compliance", "Regulatory compliance"),
   ("stamina", "Physical stamina & dexterity"), ("lift", "Physical stamina & dexterity")]

/-- Embeds `hits[skill] = hits.get(skill, 0) + 1` on an insertion-ordered
association list (a Python dict). -/
def bumpHit (k : String) : List (String × Nat) → List (String × Nat)
  | [] => [(k, 1)]
  | (k', n) :: t => if k' = k then (k', n + 1) :: t else (k', n) :: bumpHit k t

/-- Stable descending insertion by count: `sorted(..., key=lambda kv: -kv[1])`. -/
def insCountDesc (x : String × Nat) : List (String × Nat) → List (String × Nat)
  | [] => [x]
  | y :: t => if y.2 < x.2 then x :: y :: t else y :: insCountDesc x t

def suggest_transferable_skills_from_text (text : String) : List String :=
  let low := pyLower text.data
  let hits := TRANSFERABLE_KEYWORDS.foldl
    (fun h kv => if isSubstr kv.1.data low then bumpHit kv.2 h else h) []
  let sorted := hits.foldl (fun acc x => insCountDesc x acc) []
  let ordered := sorted.map Prod.fst
  let canon_order := SKILL_CANON.filter (fun s => s ∈ ordered)
  canon_order.take 8

/-- Embeds `SKILLS_SECTION_RE`: `^\s*(skills|core competencies|key skills)\b.*$`,
`re.I`, searched per line. -/
def skillsSectionHit (l : List Char) : Bool :=
  let r := l.dropWhile pyWs
  ["skills".data, "core competencies".data, "key skills".data].any fun w =>
    match mLit w r with
    | some (_, rest) =>
      match rest with
      | [] => true
      | c :: _ => !pyWord c
    | none => false

/-- Embeds `^\s*(experience|work history|employment|education|objective|summary)\b`. -/
def expBreakHit (l : List Char) : Bool :=
  let r := l.dropWhile pyWs
  ["experience".data, "work history".data, "employment".data, "education".data,
   "objective".data, "summary".data].any fun w =>
    match mLit w r with
    | some (_, rest) =>
      match rest with
      | [] => true
      | c :: _ => !pyWord c
    | none => false

/-- Embeds `re.match(r"^[•\-•]*\s*(.+)$", ln)`'s first group (Python backtracks
the greedy bullet/whitespace runs until `.+` has at least one character;
`chunk = ln` when the match fails, i.e. on the empty line). -/
def chunkOf (ln : List Char) : List Char :=
  let b := (ln.takeWhile bulletC).length
  let rest := ln.drop b
  let w := (rest.takeWhile pyWs).length
  let r := rest.drop w
  if r ≠ [] then r
  else if 0 < w then rest.drop (w - 1)
  else if 0 < b then ln.drop (b - 1)
  else ln

/-- Embeds `re.split(r"[,••;]+", ·)` with `strip`ped non-empty parts. -/
def skillSepC (c : Char) : Bool := c = ',' || c = '•' || c = ';'

def skillSplitParts (l : List Char) : List (List Char) :=
  splitRunsAux skillSepC [] l

def chunkParts (chunk : List Char) : List String :=
  (skillSplitParts chunk).filterMap fun p =>
    let p' := pyStrip p
    if p' = [] then none else some (String.mk p')

/-- The body loop of `_extract_explicit_skills_block` over the (at most
40-line) window after the skills heading. -/
def skillsBlockLoop : List (List Char) → List String
  | [] => []
  | l :: rest =>
    let ln := pyStrip l
    if ln = [] then skillsBlockLoop rest
    else if expBreakHit ln then []
    else chunkParts (chunkOf ln) ++ skillsBlockLoop rest

def extract_explicit_skills_block (text : String) : List String :=
  let lines := pySplitlines text.data
  match lines.findIdx? skillsSectionHit with
  | none => []
  | some i => skillsBlockLoop ((lines.drop (i + 1)).take 40)

/-- Embeds `JOB_SPECIFIC_KEYWORDS`. -/
def JOB_SPECIFIC_KEYWORDS : List (String × List String) :=
  [("hand & power tools", ["Hand & power tools", "Tool identification", "Safe tool use"]),
   ("blueprint", ["Reading blueprints & specs", "Plan notes"]),
   ("schematic", ["Reading blueprints & specs", "Schematic reading"]),
   ("conduit", ["Hand & power tools", "Layout & measurement"]),
   ("layout", ["Layout & measurement", "Reading blueprints & specs"]),
   ("rigging", ["Rigging basics", "Tagline & signals"]),
   ("forklift", ["Materials handling (wood/concrete/metal)", "Operating machinery"]),
   ("pallet", ["Materials handling (wood/concrete/metal)"]),
   ("ladder", ["Ladder safety", "Working at heights"]),
   ("math", ["Trades math & measurement"]),
   ("measure", ["Trades math & measurement"]),
   ("tapemeasure", ["Trades math & measurement"]),
   ("welding", ["Welding basics"]),
   ("brazing", ["Brazing/soldering basics"]),
   ("solder", ["Brazing/soldering basics"]),
   ("lockout", ["Regulatory compliance"]),
   ("osha", ["Safety awareness"]),
   ("ppe", ["Safety awareness"])]

/-- Embeds `SELF_MGMT_KEYWORDS`. -/
def SELF_MGMT_KEYWORDS : List (String × List String) :=
  [("reliable", ["Reliability", "On-time attendance"]),
   ("attendance", ["On-time attendance", "Accountability"]),
   ("team", ["Teamwork & collaboration"]),
   ("collaborat", ["Teamwork & collaboration"]),
   ("communication", ["Communication", "Conflict resolution"]),
   ("customer", ["Customer service"]),
   ("pace", ["Time management", "Production focus"]),
   ("deadline", ["Time management"]),
   ("detail", ["Attention to detail"]),
   ("learn", ["Adaptability & willingness to learn"]),
   ("adapt", ["Adaptability & willingness to learn"]),
   ("lead", ["Leadership"]),
   ("stamina", ["Physical stamina & dexterity"])]

/-- Embeds `ROLE_TO_SKILLS`: role keyword to (job-specific, self-management). -/
def ROLE_TO_SKILLS : List (String × List String × List String) :=
  [("line cook", (["Hand & power tools", "Knife safety", "Sanitation discipline"],
                  ["Time management", "Teamwork & collaboration", "Attention to detail"])),
   ("server", (["Customer service", "Cash handling"],
               ["Communication", "Time management", "Teamwork & collaboration"])),
   ("retail", (["Inventory", "Point-of-sale"],
               ["Customer service", "Communication", "Attention to detail"])),
   ("warehouse", (["Materials handling (wood/concrete/metal)", "Pallet jack", "Forklift basics"],
                  ["Time management", "Teamwork & collaboration", "Physical stamina & dexterity"])),
   ("barista", (["Sanitation discipline", "Equipment cleaning"],
                ["Customer service", "Time management", "Attention to detail"])),
   ("janitor", (["Chemical safety", "Equipment cleaning"],
                ["Reliability", "Attention to detail", "Independence"])),
   ("custodian", (["Facility setup", "Materials handling (wood/concrete/metal)"],
                  ["Reliability", "Time management"])),
   ("mover", (["Rigging basics", "Materials handling (wood/concrete/metal)"],
              ["Physical stamina & dexterity", "Teamwork & collaboration"])),
   ("driver", (["Load securement", "Route planning"],
               ["Time management", "Communication", "Reliability"])),
   ("landscaper", (["Equipment operation", "Rigging basics"],
                   ["Physical stamina & dexterity", "Time management"])),
   ("security", (["Incident reporting"],
                 ["Communication", "Situational awareness", "Reliability"])),
   ("housekeeper", (["Equipment cleaning", "Chemical safety"],
                    ["Attention to detail", "Time management"]))]

/-- The token lists classifying an explicit skill label as job-specific or
self-management in `mine_resume_skills`. -/
def JS_TOKENS : List String :=
  ["tool", "blueprint", "conduit", "rigging", "forklift", "ladder", "weld",
   "solder", "braz", "math", "measure", "layout", "schematic", "lockout",
   "osha", "ppe", "inventory", "point-of-sale", "custodian", "janitor"]

def SM_TOKENS : List String :=
  ["reliab", "attendance", "team", "collab", "communicat", "customer", "lead",
   "stamina", "adapt", "learn", "detail", "time"]

/-- The `Transferable` assembly loop of `mine_resume_skills`: iterate over
`SKILL_CANON + sorted(tr_pool)`, normalising each label, appending it when
its lowercase form is unseen, and breaking once `MAX_SKILLS` labels are
collected. -/
def assembleTr : List String → List String → List String → List String
  | [], acc, _ => acc
  | s :: rest, acc, seen =>
    let lab := normalize_skill_label s
    let labLow := String.mk (pyLower lab.data)
    let step := if lab ≠ "" ∧ labLow ∉ seen
                then (acc ++ [lab], seen ++ [labLow]) else (acc, seen)
    if MAX_SKILLS ≤ step.1.length then step.1
    else assembleTr rest step.1 step.2

/-- The dict returned by `mine_resume_skills` (keys `"Transferable"`,
`"Job-Specific"`, `"Self-Management"`). -/
structure MinedSkills where
  transferable : List String
  jobSpecific : List String
  selfManagement : List String
deriving DecidableEq, Repr

def addNorm (acc : List String) (lab : String) : List String :=
  addSet (normalize_skill_label lab) acc

def mine_resume_skills (full_text : String) (detected_roles : List String) :
    MinedSkills :=
  let low := pyLower full_text.data
  let explicit := extract_explicit_skills_block full_text
  let explicit_norm := explicit.map normalize_skill_label
  let tr_pool := (suggest_transferable_skills_from_text full_text).foldl
    (fun acc s => addSet s acc) []
  let js_pool := JOB_SPECIFIC_KEYWORDS.foldl
    (fun acc kv => if isSubstr kv.1.data low then kv.2.foldl addNorm acc else acc) []
  let sm_pool := SELF_MGMT_KEYWORDS.foldl
    (fun acc kv => if isSubstr kv.1.data low then kv.2.foldl addNorm acc else acc) []
  let pools := detected_roles.foldl
    (fun (p : List String × List String) r =>
      let rkey := pyStrip (pyLower r.data)
      ROLE_TO_SKILLS.foldl
        (fun (p : List String × List String) entry =>
          if isSubstr entry.1.data rkey then
            (entry.2.1.foldl addNorm p.1, entry.2.2.foldl addNorm p.2)
          else p)
        p)
    (js_pool, sm_pool)
  let pools2 := explicit_norm.foldl
    (fun (p : List String × List String × List String) lab =>
      if lab = "" then p
      else if JS_TOKENS.any (fun tok => isSubstr tok.data (pyLower lab.data)) then
        (addSet lab p.1, p.2.1, p.2.2)
      else if SM_TOKENS.any (fun tok => isSubstr tok.data (pyLower lab.data)) then
        (p.1, addSet lab p.2.1, p.2.2)
      else (p.1, p.2.1, addSet lab p.2.2))
    (pools.1, pools.2, tr_pool)
  { transferable := assembleTr (SKILL_CANON ++ sortStrs pools2.2.2) [] []
    jobSpecific := (sortStrs pools2.1).take MAX_SKILLS
    selfManagement := (sortStrs pools2.2.1).take MAX_SKILLS }

/-! ## The Generate-click required-field guard (`app.py` lines 1116–1121)

The guard is inline Streamlit handler code: it collects `problems`,
and when `problems` is non-empty it shows `" | ".join(problems)` and calls
`st.stop()` before any document is built. -/

def generate_problems (name phone email : String) : List String :=
  (if pyStrip name.data = [] then ["Name is required."] else []) ++
  (if pyStrip phone.data = [] ∧ pyStrip email.data = [] then
    ["At least one contact method (Phone or Email) is required."] else [])

/-- Generation is aborted (st.stop) iff `problems` is non-empty. -/
def generate_aborts (name phone email : String) : Bool :=
  !(generate_problems name phone email).isEmpty

/-- The single concatenated user-facing message. -/
def generate_error_message (name phone email : String) : String :=
  String.intercalate " | " (generate_problems name phone email)

/-! ## Theorems: the spec's claims -/

/-- C5: on the four-line example header, `parse_header` extracts exactly
the expected name, city, state, phone and email. -/
theorem c5_parse_header_example :
    parse_header "John Doe\nSeattle, WA\n(206) 555-1234\njohn.doe@example.com" =
      { Name := "John Doe", Email := "john.doe@example.com",
        Phone := "(206) 555-1234", City := "Seattle", State := "WA" } := by
  decide

/-- C7: on the empty input every parser degrades silently to the empty
result: `parse_header` returns five empty fields and `parse_jobs`,
`parse_education` and `parse_certs` return empty lists.  (Every embedded
parser is moreover a total Lean function, reflecting that the Python
functions accept any string and never raise.) -/
theorem c7_parsers_empty_input :
    parse_header "" = { Name := "", Email := "", Phone := "", City := "", State := "" } ∧
    parse_jobs "" = [] ∧
    parse_education "" = [] ∧
    parse_certs "" = [] := by
  refine ⟨by decide, ?_, by decide, by decide⟩
  simp [parse_jobs, jobsLoop, pySplitlines, pySplitlinesAux]

/-- C9: the Generate-click guard aborts (collects a problem and stops)
exactly when the trimmed Name is blank or both trimmed contact fields are
blank; when it does not abort there are no problems and document building
proceeds; when it aborts the concatenated message is non-empty. -/
theorem c9_generate_guard (name phone email : String) :
    (generate_aborts name phone email = true ↔
      (pyStrip name.data = [] ∨ (pyStrip phone.data = [] ∧ pyStrip email.data = []))) ∧
    (generate_aborts name phone email = false ↔ generate_problems name phone email = []) ∧
    (generate_aborts name phone email = true → generate_error_message name phone email ≠ "") := by
  by_cases h1 : pyStrip name.data = [] <;>
    by_cases h2 : pyStrip phone.data = [] <;>
      by_cases h3 : pyStrip email.data = [] <;>
        (simp [generate_aborts, generate_problems, generate_error_message, h1, h2, h3,
          String.intercalate]
         try decide)

/-- C9 witness: the guard theorem applied at all-blank inputs (where it
aborts with a non-empty message). -/
theorem c9_witness : generate_error_message "" "" "" ≠ "" :=
  (c9_generate_guard "" "" "").2.2 (by decide)

/-- The `Transferable` assembly loop reaches `MAX_SKILLS` distinct labels
while still inside `SKILL_CANON`, so it never inspects the mined pool. -/
theorem assembleTr_canon_fixed (rest : List String) :
    assembleTr (SKILL_CANON ++ rest) [] [] =
      ["Problem-solving", "Critical Thinking", "Attention To Detail", "Time Management",
       "Teamwork & Collaboration", "Adaptability & Willingness To Learn", "Safety Awareness",
       "Conflict Resolution", "Customer Service", "Leadership", "Reading Blueprints & Specs",
       "Hand & Power Tools"] := rfl

/-- C10: the `Transferable` list produced by `mine_resume_skills` is the
same fixed 12-element list — the first 12 distinct normalised entries of
`SKILL_CANON` — for every input text and every detected-role list. -/
theorem c10_transferable_fixed (full_text : String) (detected_roles : List String) :
    (mine_resume_skills full_text detected_roles).transferable =
      ["Problem-solving", "Critical Thinking", "Attention To Detail", "Time Management",
       "Teamwork & Collaboration", "Adaptability & Willingness To Learn", "Safety Awareness",
       "Conflict Resolution", "Customer Service", "Leadership", "Reading Blueprints & Specs",
       "Hand & Power Tools"] := by
  dsimp only [mine_resume_skills]
  exact assembleTr_canon_fixed _

/-- C4 counterexample: the canonical label `"Critical thinking"` is not a
fixed point of `normalize_skill_label` (its lowercase form is not a synonym
key, so it is title-cased to `"Critical Thinking"`), refuting idempotence
on all of `SKILL_CANON`. -/
theorem c4_counterexample :
    "Critical thinking" ∈ SKILL_CANON ∧
    normalize_skill_label "Critical thinking" = "Critical Thinking" ∧
    normalize_skill_label "Critical thinking" ≠ "Critical thinking" := by
  decide

/-- C4 (amended): `normalize_skill_label` is total (it is a Lean function
on all of `String`), and on the canonical list it fixes exactly the two
labels `"Problem-solving"` (a synonym value) and `"Leadership"` (already
title-case); every other canonical label is altered. -/
theorem c4_normalize_amended (s : String) (h : s ∈ SKILL_CANON) :
    normalize_skill_label s = s ↔ (s = "Problem-solving" ∨ s = "Leadership") := by
  fin_cases h <;> decide

/-- C4 witness: the amended theorem applied at `"Problem-solving"` and at
`"Critical thinking"`. -/
theorem c4_witness :
    (normalize_skill_label "Problem-solving" = "Problem-solving" ↔
      ("Problem-solving" = "Problem-solving" ∨ "Problem-solving" = "Leadership")) ∧
    (normalize_skill_label "Critical thinking" = "Critical thinking" ↔
      ("Critical thinking" = "Problem-solving" ∨ "Critical thinking" = "Leadership")) :=
  ⟨c4_normalize_amended "Problem-solving" (by decide),
   c4_normalize_amended "Critical thinking" (by decide)⟩

/-- C6 counterexample: on the text `"OSHA-10"` the parser returns the label
`"OSHA-10"`, not the spec's `"OSHA Outreach 10-Hour (Construction)"`. -/
theorem c6_counterexample :
    parse_certs "OSHA-10" = ["OSHA-10"] ∧
    "OSHA Outreach 10-Hour (Construction)" ∉ parse_certs "OSHA-10" := by
  decide

/-- C1 counterexample: the single-pass substitution can reintroduce banned
text: deleting `ibew` from `"local ibew 123"` yields `"local  123"`, which
matches the `local\s*\d+` alternative of `BANNED_RE`. -/
theorem c1_counterexample :
    strip_banned "local ibew 123" = "local  123" ∧
    bannedSearch false ("local  123" : String).data = true := by
  decide

/-- C2 counterexample: on an input with no usable digit subsequence,
`clean_phone` collapses the internal double space, so it does not return
the trimmed original unmodified. -/
theorem c2_counterexample :
    clean_phone "a  b" = "a b" ∧
    pyStrip ("a  b" : String).data = ("a  b" : String).data ∧
    clean_phone "a  b" ≠ "a  b" := by
  decide

theorem length_dropWhile_le {α : Type} (p : α → Bool) (l : List α) :
    (l.dropWhile p).length ≤ l.length := by
  induction l with
  | nil => simp [List.dropWhile]
  | cons c t ih =>
    by_cases h : p c
    · simp only [List.dropWhile, h, List.length_cons]
      omega
    · simp [List.dropWhile, h]

theorem ws_not_digit (c : Char) (h : pyWs c = true) : pyDigit c = false := by
  simp only [pyWs, Bool.or_eq_true, decide_eq_true_eq] at h
  rcases h with ((((rfl | rfl) | rfl) | rfl) | rfl) | rfl <;> decide

theorem filter_collapseWsAux (l : List Char) :
    ∀ b, (collapseWsAux b l).filter pyDigit = l.filter pyDigit := by
  induction l with
  | nil => intro b; rfl
  | cons c t ih =>
    intro b
    by_cases hc : pyWs c
    · have hcd : pyDigit c = false := ws_not_digit c hc
      have hsp : pyDigit ' ' = false := by decide
      cases b <;> simp [collapseWsAux, hc, List.filter_cons, hcd, hsp, ih]
    · simp [collapseWsAux, hc, List.filter_cons, ih]

theorem filter_dropWhileWs (l : List Char) :
    (l.dropWhile pyWs).filter pyDigit = l.filter pyDigit := by
  induction l with
  | nil => rfl
  | cons c t ih =>
    by_cases hc : pyWs c
    · simp [List.dropWhile, hc, List.filter_cons, ws_not_digit c hc, ih]
    · simp [List.dropWhile, hc]

theorem dropTrail_nil_all (p : Char → Bool) (l : List Char)
    (h : dropTrailIf p l = []) : ∀ c ∈ l, p c = true := by
  induction l with
  | nil => intro c hc; cases hc
  | cons c t ih =>
    intro x hx
    rw [dropTrailIf] at h
    cases hr : dropTrailIf p t with
    | nil =>
      rw [hr] at h
      by_cases hc : p c
      · rcases List.mem_cons.mp hx with rfl | hxt
        · exact hc
        · exact ih hr x hxt
      · simp [hc] at h
    | cons r0 rr => rw [hr] at h; cases h

theorem filter_dropTrailWs (l : List Char) :
    (dropTrailIf pyWs l).filter pyDigit = l.filter pyDigit := by
  induction l with
  | nil => rfl
  | cons c t ih =>
    rw [dropTrailIf]
    cases hr : dropTrailIf pyWs t with
    | nil =>
      have htfil : t.filter pyDigit = [] := by
        refine List.filter_eq_nil_iff.mpr fun a ha => ?_
        simp [ws_not_digit a (dropTrail_nil_all pyWs t hr a ha)]
      by_cases hc : pyWs c
      · simp [hc, List.filter_cons, ws_not_digit c hc, htfil]
      · simp [hc, List.filter_cons, htfil]
    | cons r0 rr =>
      have := ih
      rw [hr] at this
      simp [List.filter_cons, this]

theorem collapseWsAux_idem (l : List Char) :
    ∀ b, collapseWsAux b (collapseWsAux b l) = collapseWsAux b l := by
  induction l with
  | nil => intro b; rfl
  | cons c t ih =>
    intro b
    by_cases hc : pyWs c
    · cases b
      · simp only [collapseWsAux, hc, if_true, Bool.false_eq_true, if_false]
        have : pyWs ' ' = true := by decide
        simp [collapseWsAux, this, ih true]
      · simp [collapseWsAux, hc, ih true]
    · simp [collapseWsAux, hc, ih false]

theorem any_nonws_of_dtfix (l : List Char)
    (h : dropTrailIf pyWs l = l) (hne : l ≠ []) :
    l.any (fun c => !pyWs c) = true := by
  induction l with
  | nil => exact absurd rfl hne
  | cons c t ih =>
    rw [dropTrailIf] at h
    cases hr : dropTrailIf pyWs t with
    | nil =>
      rw [hr] at h
      by_cases hc : pyWs c
      · simp [hc] at h
      · simp [hc]
    | cons r0 rr =>
      rw [hr] at h
      have ht : t = r0 :: rr := by
        have := h
        injection this with _ h2
        exact h2.symm
      have : dropTrailIf pyWs t = t := by rw [hr, ht]
      have hany := ih this (by simp [ht])
      simp [hany]

theorem collapse_ne_nil (l : List Char) :
    ∀ b, l.any (fun c => !pyWs c) = true → collapseWsAux b l ≠ [] := by
  induction l with
  | nil => intro b h; simp at h
  | cons c t ih =>
    intro b h
    by_cases hc : pyWs c
    · have ht : t.any (fun c => !pyWs c) = true := by
        simp [hc] at h
        simpa using h
      cases b
      · simp [collapseWsAux, hc]
      · simp only [collapseWsAux, hc, if_true]
        exact ih true ht
    · simp [collapseWsAux, hc]

theorem dt_fix_collapse (l : List Char) (h : dropTrailIf pyWs l = l) :
    ∀ b, dropTrailIf pyWs (collapseWsAux b l) = collapseWsAux b l := by
  induction l with
  | nil => intro b; rfl
  | cons c t ih =>
    intro b
    rw [dropTrailIf] at h
    cases hr : dropTrailIf pyWs t with
    | nil =>
      rw [hr] at h
      by_cases hc : pyWs c
      · simp [hc] at h
      · simp only [hc, Bool.false_eq_true, if_false] at h
        have ht : t = [] := by
          have := h
          injection this with _ h2
          exact h2.symm
        subst ht
        simp [collapseWsAux, hc, dropTrailIf]
    | cons r0 rr =>
      rw [hr] at h
      have ht : t = r0 :: rr := by
        injection h with _ h2
        exact h2.symm
      have htfix : dropTrailIf pyWs t = t := by rw [hr, ht]
      have hany := any_nonws_of_dtfix t htfix (by simp [ht])
      have ihr := ih htfix
      by_cases hc : pyWs c
      · cases b
        · simp only [collapseWsAux, hc, if_true, Bool.false_eq_true, if_false]
          rw [dropTrailIf]
          cases hx : collapseWsAux true t with
          | nil => exact absurd hx (collapse_ne_nil t true hany)
          | cons x0 xr =>
            have := ihr true
            rw [hx] at this
            rw [this]
        · simp only [collapseWsAux, hc, if_true]
          exact ihr true
      · simp only [collapseWsAux, hc, Bool.false_eq_true, if_false]
        rw [dropTrailIf]
        cases hx : collapseWsAux false t with
        | nil => exact absurd hx (collapse_ne_nil t false hany)
        | cons x0 xr =>
          have := ihr false
          rw [hx] at this
          rw [this]

theorem dropWhile_ws_idem (l : List Char) :
    (l.dropWhile pyWs).dropWhile pyWs = l.dropWhile pyWs := by
  induction l with
  | nil => rfl
  | cons c t ih =>
    by_cases hc : pyWs c
    · simp [List.dropWhile, hc, ih]
    · simp [List.dropWhile, hc]

theorem dt_ws_idem (l : List Char) :
    dropTrailIf pyWs (dropTrailIf pyWs l) = dropTrailIf pyWs l := by
  induction l with
  | nil => rfl
  | cons c t ih =>
    rw [dropTrailIf]
    cases hr : dropTrailIf pyWs t with
    | nil =>
      by_cases hc : pyWs c
      · simp [hc, dropTrailIf]
      · simp [hc, dropTrailIf]
    | cons r0 rr =>
      rw [hr] at ih
      rw [dropTrailIf, ih]

theorem dw_fix_collapse (l : List Char) (h : l.dropWhile pyWs = l) :
    (collapseWsAux false l).dropWhile pyWs = collapseWsAux false l := by
  cases l with
  | nil => rfl
  | cons c t =>
    by_cases hc : pyWs c
    · exfalso
      rw [List.dropWhile_cons, if_pos hc] at h
      have := length_dropWhile_le pyWs t
      have := congrArg List.length h
      simp at this
      omega
    · simp [collapseWsAux, hc, List.dropWhile_cons]

theorem dw_fix_dt (l : List Char) (h : l.dropWhile pyWs = l) :
    (dropTrailIf pyWs l).dropWhile pyWs = dropTrailIf pyWs l := by
  cases l with
  | nil => rfl
  | cons c t =>
    have hc : pyWs c = false := by
      by_contra hcc
      rw [Bool.not_eq_false] at hcc
      rw [List.dropWhile_cons, if_pos hcc] at h
      have := length_dropWhile_le pyWs t
      have := congrArg List.length h
      simp at this
      omega
    rw [dropTrailIf]
    cases hr : dropTrailIf pyWs t with
    | nil => simp [hc, List.dropWhile_cons]
    | cons r0 rr => simp [hc, List.dropWhile_cons]

theorem norm_ws_data (s : String) :
    (norm_ws s).data = collapseWsAux false (pyStrip s.data) := rfl

theorem norm_ws_idem (s : String) : norm_ws (norm_ws s) = norm_ws s := by
  have hA : (s.data.dropWhile pyWs).dropWhile pyWs = s.data.dropWhile pyWs :=
    dropWhile_ws_idem s.data
  have hBdw : (pyStrip s.data).dropWhile pyWs = pyStrip s.data :=
    dw_fix_dt (s.data.dropWhile pyWs) hA
  have hBdt : dropTrailIf pyWs (pyStrip s.data) = pyStrip s.data :=
    dt_ws_idem (s.data.dropWhile pyWs)
  have h1 : (collapseWsAux false (pyStrip s.data)).dropWhile pyWs =
      collapseWsAux false (pyStrip s.data) := dw_fix_collapse _ hBdw
  have h2 : dropTrailIf pyWs (collapseWsAux false (pyStrip s.data)) =
      collapseWsAux false (pyStrip s.data) := dt_fix_collapse _ hBdt false
  have hstrip : pyStrip ((norm_ws s).data) = (norm_ws s).data := by
    rw [norm_ws_data]
    show dropTrailIf pyWs ((collapseWsAux false (pyStrip s.data)).dropWhile pyWs) = _
    rw [h1, h2]
  show String.mk (collapseWs (pyStrip (norm_ws s).data)) = norm_ws s
  rw [hstrip, norm_ws_data]
  show String.mk (collapseWsAux false (collapseWsAux false (pyStrip s.data))) = _
  rw [collapseWsAux_idem _ false]
  rfl

theorem filter_norm_ws (s : String) :
    (norm_ws s).data.filter pyDigit = s.data.filter pyDigit := by
  rw [norm_ws_data]
  rw [filter_collapseWsAux _ false]
  unfold pyStrip
  rw [filter_dropTrailWs, filter_dropWhileWs]

theorem phoneFmt_filter (d : List Char) (h : ∀ c ∈ d, pyDigit c = true) :
    (phoneFmt d).filter pyDigit = d := by
  have hp1 : pyDigit '(' = false := by decide
  have hp2 : pyDigit ')' = false := by decide
  have hp3 : pyDigit ' ' = false := by decide
  have hp4 : pyDigit '-' = false := by decide
  have ht3 : (d.take 3).filter pyDigit = d.take 3 :=
    List.filter_eq_self.mpr fun a ha => h a (List.take_subset 3 d ha)
  have ht33 : ((d.drop 3).take 3).filter pyDigit = (d.drop 3).take 3 :=
    List.filter_eq_self.mpr fun a ha =>
      h a (List.drop_subset 3 d (List.take_subset 3 (d.drop 3) ha))
  have ht6 : (d.drop 6).filter pyDigit = d.drop 6 :=
    List.filter_eq_self.mpr fun a ha => h a (List.drop_subset 6 d ha)
  simp only [phoneFmt, List.filter_append, List.filter_cons, hp1, hp2, hp3, hp4,
    Bool.false_eq_true, if_false, ht3, ht33, ht6]
  have hdd : (d.drop 3).drop 3 = d.drop 6 := by
    rw [List.drop_drop]
  rw [← hdd, List.take_append_drop, List.take_append_drop]

theorem clean_phone_of_10 (s : String)
    (h : (s.data.filter pyDigit).length = 10) :
    clean_phone s = String.mk (phoneFmt (s.data.filter pyDigit)) := by
  simp [clean_phone, h]

theorem clean_phone_of_11 (s : String)
    (h11 : (s.data.filter pyDigit).length = 11)
    (h1 : (s.data.filter pyDigit).head? = some '1') :
    clean_phone s = String.mk (phoneFmt (s.data.filter pyDigit).tail) := by
  simp [clean_phone, h11, h1, List.length_tail]

theorem clean_phone_other (s : String)
    (h10 : (s.data.filter pyDigit).length ≠ 10)
    (h11 : ¬((s.data.filter pyDigit).length = 11 ∧
      (s.data.filter pyDigit).head? = some '1')) :
    clean_phone s = norm_ws s := by
  rw [clean_phone, if_neg h11, if_neg h10]

/-- C2 (amended): a 10-digit digit subsequence is formatted as
`(NNN) NNN-NNNN`; an 11-digit subsequence starting with `1` is formatted
after dropping the `1`; every other input is returned
whitespace-normalised (trimmed, with internal whitespace runs collapsed to
single spaces — not the trimmed original verbatim).  The function is total
and never raises. -/
theorem c2_clean_phone_amended (s : String) :
    ((s.data.filter pyDigit).length = 10 →
      clean_phone s = String.mk (phoneFmt (s.data.filter pyDigit))) ∧
    ((s.data.filter pyDigit).length = 11 →
      (s.data.filter pyDigit).head? = some '1' →
      clean_phone s = String.mk (phoneFmt (s.data.filter pyDigit).tail)) ∧
    ((s.data.filter pyDigit).length ≠ 10 →
      ¬((s.data.filter pyDigit).length = 11 ∧
        (s.data.filter pyDigit).head? = some '1') →
      clean_phone s = norm_ws s) :=
  ⟨clean_phone_of_10 s, clean_phone_of_11 s, clean_phone_other s⟩

/-- C2 witness: the amended theorem applied at a 10-digit input, an
11-digit input starting with `1`, and a digit-free input. -/
theorem c2_witness :
    clean_phone "206-555-1234" =
      String.mk (phoneFmt (("206-555-1234" : String).data.filter pyDigit)) ∧
    clean_phone "+1 (206) 555-1234" =
      String.mk (phoneFmt (("+1 (206) 555-1234" : String).data.filter pyDigit).tail) ∧
    clean_phone "ab c" = norm_ws "ab c" :=
  ⟨(c2_clean_phone_amended "206-555-1234").1 (by decide),
   (c2_clean_phone_amended "+1 (206) 555-1234").2.1 (by decide) (by decide),
   (c2_clean_phone_amended "ab c").2.2 (by decide) (by decide)⟩

/-- C3: `clean_phone` is idempotent on every input string. -/
theorem c3_clean_phone_idempotent (x : String) :
    clean_phone (clean_phone x) = clean_phone x := by
  by_cases h11 : (x.data.filter pyDigit).length = 11 ∧
      (x.data.filter pyDigit).head? = some '1'
  · set d := (x.data.filter pyDigit).tail with hd
    have hx : clean_phone x = String.mk (phoneFmt d) := clean_phone_of_11 x h11.1 h11.2
    have hmem : ∀ c ∈ d, pyDigit c = true := fun c hc =>
      List.of_mem_filter (List.tail_subset _ hc)
    have hfd : (String.mk (phoneFmt d)).data.filter pyDigit = d := phoneFmt_filter d hmem
    have hlen : ((String.mk (phoneFmt d)).data.filter pyDigit).length = 10 := by
      rw [hfd, hd, List.length_tail, h11.1]
    rw [hx, clean_phone_of_10 _ hlen, hfd]
  · by_cases h10 : (x.data.filter pyDigit).length = 10
    · set d := x.data.filter pyDigit with hd
      have hx : clean_phone x = String.mk (phoneFmt d) := clean_phone_of_10 x h10
      have hmem : ∀ c ∈ d, pyDigit c = true := fun c hc => List.of_mem_filter hc
      have hfd : (String.mk (phoneFmt d)).data.filter pyDigit = d := phoneFmt_filter d hmem
      have hlen : ((String.mk (phoneFmt d)).data.filter pyDigit).length = 10 := by
        rw [hfd, ← hd] at *
        exact h10
      rw [hx, clean_phone_of_10 _ hlen, hfd]
    · have hx : clean_phone x = norm_ws x := clean_phone_other x h10 h11
      have hn := filter_norm_ws x
      rw [hx, clean_phone_other (norm_ws x) (by rw [hn]; exact h10) (by rw [hn]; exact h11),
        norm_ws_idem]

theorem bannedSub_id (l : List Char) :
    ∀ pw, bannedSearch pw l = false → bannedSubAux 0 pw l = l := by
  induction l with
  | nil => intro pw _; rfl
  | cons c t ih =>
    intro pw h
    rw [bannedSearch] at h
    rcases Bool.or_eq_false_iff.mp h with ⟨h1, h2⟩
    cases hm : bannedMatchAt pw (c :: t) with
    | some n => rw [hm] at h1; cases h1
    | none =>
      rw [bannedSubAux, hm]
      rw [ih (pyWord c) h2]

/-- C1 (amended): `strip_banned` deletes, in one left-to-right pass, every
non-overlapping match of the denylist regex and trims the result; an input
containing no denylist match is returned unchanged apart from whitespace
trimming.  The deletions can however re-create a denylist match, so the
returned string may again match `BANNED_RE` (see `c1_counterexample`). -/
theorem c1_strip_banned_amended (s : String)
    (h : bannedSearch false s.data = false) :
    strip_banned s = String.mk (pyStrip s.data) := by
  unfold strip_banned bannedSub
  rw [bannedSub_id s.data false h]

/-- C1 witness: a denylist-free input is returned trimmed-unchanged. -/
theorem c1_witness :
    bannedSearch false ("  hello world " : String).data = false ∧
    strip_banned "  hello world " = String.mk (pyStrip ("  hello world " : String).data) :=
  ⟨by decide, c1_strip_banned_amended "  hello world " (by decide)⟩

theorem char_eq_of_toNat (x y : Char) (h : x.toNat = y.toNat) : x = y := by
  have hx := Char.ofNat_toNat x
  rw [← hx, h, Char.ofNat_toNat]

theorem lexLt_eq_of_not (a : List Char) :
    ∀ b, lexLt a b = false → lexLt b a = false → a = b := by
  induction a with
  | nil =>
    intro b hab _
    cases b with
    | nil => rfl
    | cons y ys => simp [lexLt] at hab
  | cons x xs ih =>
    intro b hab hba
    cases b with
    | nil => simp [lexLt] at hba
    | cons y ys =>
      rw [lexLt] at hab hba
      by_cases h1 : x.toNat < y.toNat
      · rw [if_pos h1] at hab; cases hab
      · rw [if_neg h1] at hab
        by_cases h2 : y.toNat < x.toNat
        · rw [if_pos h2] at hba; cases hba
        · rw [if_neg h2] at hab
          rw [if_neg h2, if_neg h1] at hba
          have hxy : x = y := char_eq_of_toNat x y (by omega)
          rw [hxy, ih ys hab hba]

theorem string_eq_of_data (a b : String) (h : a.data = b.data) : a = b := by
  cases a
  cases b
  exact congrArg String.mk h

/-- Strings unordered in both directions are equal. -/
theorem sLt_eq_of_not (a b : String) (hab : lexLt a.data b.data = false)
    (hba : lexLt b.data a.data = false) : a = b :=
  string_eq_of_data a b (lexLt_eq_of_not a.data b.data hab hba)

theorem mem_insLex (x a : String) (l : List String) :
    x ∈ insLex a l ↔ x = a ∨ x ∈ l := by
  induction l with
  | nil => simp [insLex]
  | cons b t ih =>
    rw [insLex]
    by_cases hlt : lexLt a.data b.data
    · simp [hlt]
    · simp only [Bool.not_eq_true] at hlt
      simp only [hlt, Bool.false_eq_true, if_false, List.mem_cons, ih]
      tauto

theorem nodup_insLex (a : String) (l : List String) (ha : a ∉ l) (hl : l.Nodup) :
    (insLex a l).Nodup := by
  induction l with
  | nil => simp [insLex]
  | cons b t ih =>
    rw [insLex]
    have hab : a ≠ b := fun h => ha (h ▸ List.mem_cons_self b t)
    have hat : a ∉ t := fun h => ha (List.mem_cons_of_mem b h)
    rcases List.nodup_cons.mp hl with ⟨hbt, hnt⟩
    by_cases hlt : lexLt a.data b.data
    · simp only [hlt, if_true]
      refine List.nodup_cons.mpr ⟨?_, hl⟩
      simp [hab, ha]
    · simp only [Bool.not_eq_true] at hlt
      simp only [hlt, Bool.false_eq_true, if_false]
      refine List.nodup_cons.mpr ⟨?_, ih hat hnt⟩
      rw [mem_insLex]
      rintro (rfl | hbt')
      · exact hab rfl
      · exact hbt hbt'

theorem chain'_insLex (a : String) (l : List String) (ha : a ∉ l)
    (hc : List.Chain' (fun x y => lexLt x.data y.data = true) l) :
    List.Chain' (fun x y => lexLt x.data y.data = true) (insLex a l) := by
  induction l with
  | nil => simp [insLex]
  | cons b t ih =>
    have hab : a ≠ b := fun h => ha (h ▸ List.mem_cons_self b t)
    have hat : a ∉ t := fun h => ha (List.mem_cons_of_mem b h)
    rw [insLex]
    by_cases hlt : lexLt a.data b.data
    · simp only [hlt, if_true]
      exact List.Chain'.cons hlt hc
    · simp only [Bool.not_eq_true] at hlt
      simp only [hlt, Bool.false_eq_true, if_false]
      have hba : lexLt b.data a.data = true := by
        by_contra hne
        rw [Bool.not_eq_true] at hne
        exact hab (sLt_eq_of_not a b hlt hne)
      have htc : List.Chain' (fun x y => lexLt x.data y.data = true) t := hc.tail
      cases t with
      | nil => simp [insLex, hba]
      | cons c ts =>
        have hbc : lexLt b.data c.data = true := List.chain'_cons.mp hc |>.1
        rw [List.chain'_cons']
        refine ⟨?_, ih hat htc⟩
        intro y hy
        simp only [insLex] at hy
        by_cases hac : lexLt a.data c.data
        · simp only [hac, if_true, List.head?_cons, Option.mem_some_iff] at hy
          rw [← hy]
          exact hba
        · simp only [Bool.not_eq_true] at hac
          simp only [hac, Bool.false_eq_true, if_false, List.head?_cons,
            Option.mem_some_iff] at hy
          rw [← hy]
          exact hbc

theorem sortStrs_spec (l : List String) (h : l.Nodup) :
    (sortStrs l).Nodup ∧
    List.Chain' (fun x y => lexLt x.data y.data = true) (sortStrs l) ∧
    ∀ x, x ∈ sortStrs l ↔ x ∈ l := by
  induction l with
  | nil => exact ⟨List.nodup_nil, List.chain'_nil, by simp [sortStrs]⟩
  | cons a t ih =>
    rcases List.nodup_cons.mp h with ⟨hat, hnt⟩
    rcases ih hnt with ⟨hnd, hch, hmem⟩
    have hstep : sortStrs (a :: t) = insLex a (sortStrs t) := rfl
    have hans : a ∉ sortStrs t := fun hx => hat ((hmem a).mp hx)
    refine ⟨?_, ?_, ?_⟩
    · rw [hstep]; exact nodup_insLex a _ hans hnd
    · rw [hstep]; exact chain'_insLex a _ hans hch
    · intro x
      rw [hstep, mem_insLex, List.mem_cons, hmem]

theorem addSet_nodup (x : String) (acc : List String) (h : acc.Nodup) :
    (addSet x acc).Nodup := by
  rw [addSet]
  by_cases hx : x ∈ acc
  · simp [hx, h]
  · simp only [hx, if_false]
    exact List.Nodup.append h (List.nodup_singleton x) (by simp [List.disjoint_left, hx])

theorem addSet_mem_mono (x y : String) (acc : List String) (h : y ∈ acc) :
    y ∈ addSet x acc := by
  rw [addSet]
  by_cases hx : x ∈ acc <;> simp [hx, h]

theorem addSet_mem_self (x : String) (acc : List String) : x ∈ addSet x acc := by
  rw [addSet]
  by_cases hx : x ∈ acc <;> simp [hx]

theorem foldl_preserve {α β : Type} (P : α → Prop) (f : α → β → α)
    (hf : ∀ a b, P a → P (f a b)) :
    ∀ (l : List β) (a : α), P a → P (l.foldl f a) := by
  intro l
  induction l with
  | nil => intro a ha; exact ha
  | cons b t ih => intro a ha; exact ih (f a b) (hf a b ha)

theorem isSubstr_of_prefix (n₁ n₂ : List Char) (hp : n₁ <+: n₂) :
    ∀ hay, isSubstr n₂ hay = true → isSubstr n₁ hay = true := by
  intro hay
  induction hay with
  | nil =>
    intro h
    rw [isSubstr] at h ⊢
    have : n₂ = [] := by simpa using h
    subst this
    simpa using List.prefix_nil.mp hp
  | cons c t ih =>
    intro h
    rw [isSubstr] at h ⊢
    rcases Bool.or_eq_true_iff.mp h with h1 | h2
    · have : n₂ <+: c :: t := List.isPrefixOf_iff_prefix.mp h1
      exact Bool.or_eq_true_iff.mpr
        (Or.inl (List.isPrefixOf_iff_prefix.mpr (hp.trans this)))
    · exact Bool.or_eq_true_iff.mpr (Or.inr (ih h2))

/-- C6 (amended): for every input text, `parse_certs` returns a
duplicate-free, strictly ascending (code-point-ordered) list of labels,
and any text containing the substring `"OSHA-10"` in any letter case —
indeed any text containing `"osha"` case-insensitively — yields a list
containing the label `"OSHA-10"` (the source's canonical label; the
spec's `"OSHA Outreach 10-Hour (Construction)"` appears nowhere in the
code). -/
theorem c6_parse_certs_amended (text : String) :
    ((parse_certs text).Nodup ∧
      List.Chain' (fun x y => lexLt x.data y.data = true) (parse_certs text)) ∧
    (isSubstr ("osha-10" : String).data (pyLower text.data) = true →
      "OSHA-10" ∈ parse_certs text) := by
  have hstep1 : ∀ (acc : List String) (k : String), acc.Nodup →
      (if isSubstr k.data (pyLower text.data) = true
        then addSet (certLabel k) acc else acc).Nodup := by
    intro acc k h
    split
    · exact addSet_nodup _ _ h
    · exact h
  have hstep2 : ∀ (acc : List String) (line : List Char), acc.Nodup →
      (let acc1 := if isSubstr ("flagger" : String).data (pyLower line) = true
        then addSet "Flagger" acc else acc
       let acc2 := if isSubstr ("forklift" : String).data (pyLower line) = true
        then addSet "Forklift" acc1 else acc1
       if searchWords [("cpr" : String).data] line = true
        then addSet "CPR" acc2 else acc2).Nodup := by
    intro acc line h
    dsimp only
    split <;> split <;> split <;>
      first
      | exact h
      | exact addSet_nodup _ _ h
      | exact addSet_nodup _ _ (addSet_nodup _ _ h)
      | exact addSet_nodup _ _ (addSet_nodup _ _ (addSet_nodup _ _ h))
  have hnd : ∀ (init : List String), init.Nodup →
      ((pySplitlines text.data).foldl
        (fun acc line =>
          let acc := if isSubstr ("flagger" : String).data (pyLower line)
            then addSet "Flagger" acc else acc
          let acc := if isSubstr ("forklift" : String).data (pyLower line)
            then addSet "Forklift" acc else acc
          if searchWords [("cpr" : String).data] line
            then addSet "CPR" acc else acc) init).Nodup := by
    intro init h
    exact foldl_preserve List.Nodup _ (fun a b ha => hstep2 a b ha) _ init h
  have hfound : (parse_certs text).Nodup ∧
      List.Chain' (fun x y => lexLt x.data y.data = true) (parse_certs text) := by
    have base : (CERT_KEYWORDS.foldl
        (fun acc k => if isSubstr k.data (pyLower text.data)
          then addSet (certLabel k) acc else acc) []).Nodup :=
      foldl_preserve List.Nodup _ (fun a b ha => hstep1 a b ha) _ [] List.nodup_nil
    have htot := hnd _ base
    exact ⟨(sortStrs_spec _ htot).1, (sortStrs_spec _ htot).2.1⟩
  refine ⟨hfound, fun h => ?_⟩
  have hosha : isSubstr ("osha" : String).data (pyLower text.data) = true := by
    refine isSubstr_of_prefix _ _ ?_ _ h
    exact List.isPrefixOf_iff_prefix.mp (by decide)
  have hbase1 : "OSHA-10" ∈ CERT_KEYWORDS.foldl
      (fun acc k => if isSubstr k.data (pyLower text.data)
        then addSet (certLabel k) acc else acc) [] := by
    have hk : CERT_KEYWORDS = "osha" :: ["forklift", "flagger", "cpr", "first aid",
      "hazwoper", "twic", "nccer", "confined space", "ppe", "aerial lift",
      "traffic control"] := rfl
    rw [hk, List.foldl_cons]
    refine foldl_preserve (fun acc => "OSHA-10" ∈ acc) _ ?_ _ _ ?_
    · intro a b ha
      split
      · exact addSet_mem_mono _ _ _ ha
      · exact ha
    · rw [if_pos hosha]
      exact addSet_mem_self _ _
  have hbase2 : "OSHA-10" ∈ (pySplitlines text.data).foldl
      (fun acc line =>
        let acc := if isSubstr ("flagger" : String).data (pyLower line)
          then addSet "Flagger" acc else acc
        let acc := if isSubstr ("forklift" : String).data (pyLower line)
          then addSet "Forklift" acc else acc
        if searchWords [("cpr" : String).data] line
          then addSet "CPR" acc else acc)
      (CERT_KEYWORDS.foldl
        (fun acc k => if isSubstr k.data (pyLower text.data)
          then addSet (certLabel k) acc else acc) []) := by
    refine foldl_preserve (fun acc => "OSHA-10" ∈ acc) _ ?_ _ _ hbase1
    intro a b ha
    dsimp only
    split <;> split <;> split <;>
      first
      | exact ha
      | exact addSet_mem_mono _ _ _ ha
      | exact addSet_mem_mono _ _ _ (addSet_mem_mono _ _ _ ha)
      | exact addSet_mem_mono _ _ _ (addSet_mem_mono _ _ _ (addSet_mem_mono _ _ _ ha))
  have hbase0 : (CERT_KEYWORDS.foldl
      (fun acc k => if isSubstr k.data (pyLower text.data)
        then addSet (certLabel k) acc else acc) []).Nodup :=
    foldl_preserve List.Nodup _ (fun a b ha => hstep1 a b ha) _ [] List.nodup_nil
  have hndf := hnd (CERT_KEYWORDS.foldl
      (fun acc k => if isSubstr k.data (pyLower text.data)
        then addSet (certLabel k) acc else acc) []) hbase0
  exact ((sortStrs_spec _ hndf).2.2 "OSHA-10").mpr hbase2

/-- C6 witness: the amended theorem applied at the text `"osha-10 cpr"`. -/
theorem c6_witness :
    isSubstr ("osha-10" : String).data (pyLower ("osha-10 cpr" : String).data) = true ∧
    "OSHA-10" ∈ parse_certs "osha-10 cpr" :=
  ⟨by decide, (c6_parse_certs_amended "osha-10 cpr").2 (by decide)⟩

theorem bulletsLoop_len (n : Nat) :
    ∀ (lines : List (List Char)) (j : Nat) (bs : List String),
      lines.length - j ≤ n → bs.length ≤ 3 →
      (bulletsLoop lines j bs).1.length ≤ 4 := by
  induction n with
  | zero =>
    intro lines j bs hn hb
    rw [bulletsLoop, dif_neg (by omega)]
    show bs.length ≤ 4
    omega
  | succ n ih =>
    intro lines j bs hn hb
    rw [bulletsLoop]
    by_cases hj : j < lines.length
    · rw [dif_pos hj]
      dsimp only
      split
      · split
        · show bs.length ≤ 4
          omega
        · exact ih lines (j+1) bs (by omega) hb
      · split
        · show bs.length ≤ 4
          omega
        · split
          · split
            · show (bs ++ [clean_bullet
                (String.mk (stripBulletLead (pyStrip (lines.getD j []))))]).length ≤ 4
              simp only [List.length_append, List.length_singleton]
              omega
            · refine ih lines (j+1) _ (by omega) ?_
              rename_i hlt
              simp only [List.length_append, List.length_singleton] at hlt ⊢
              omega
          · split
            · exact ih lines (j+1) bs (by omega) hb
            · split
              · show bs.length ≤ 4
                omega
              · exact ih lines (j+1) bs (by omega) hb
    · rw [dif_neg hj]
      show bs.length ≤ 4
      omega

theorem mem_ite_append {C : Prop} [Decidable C] (out extra : List Job) (j : Job)
    (h : j ∈ (if C then out ++ extra else out)) : j ∈ out ++ extra := by
  by_cases hc : C
  · rw [if_pos hc] at h
    exact h
  · rw [if_neg hc] at h
    exact List.mem_append_left extra h

theorem jobsLoop_bullets (n : Nat) :
    ∀ (lines : List (List Char)) (i : Nat) (out : List Job),
      lines.length - i ≤ n → (∀ j ∈ out, j.bullets.length ≤ 4) →
      ∀ j ∈ jobsLoop lines i out, j.bullets.length ≤ 4 := by
  induction n with
  | zero =>
    intro lines i out hn hout
    rw [jobsLoop, dif_neg (by omega)]
    exact hout
  | succ n ih =>
    intro lines i out hn hout
    rw [jobsLoop]
    by_cases hi : i < lines.length
    · rw [dif_pos hi]
      split
      · exact hout
      · dsimp only
        split
        · exact ih lines (i+1) out (by omega) hout
        · split
          · exact ih lines (i+1) out (by omega) hout
          · refine ih lines _ _ (by omega) ?_
            intro j hj
            have hj' := mem_ite_append _ _ _ hj
            rcases List.mem_append.mp hj' with hj1 | hj2
            · exact hout j hj1
            · rcases List.mem_singleton.mp hj2 with rfl
              show (bulletsLoop lines (i+1) []).1.length ≤ 4
              exact bulletsLoop_len lines.length lines (i+1) [] (by omega) (by simp)
    · rw [dif_neg hi]
      exact hout

/-- C8: for every input text, `parse_jobs` returns at most `MAX_JOBS = 3`
jobs, each carrying at most `MAX_BULLETS_PER_JOB = 4` bullets, and
`parse_education` returns at most `MAX_SCHOOLS = 2` entries. -/
theorem c8_parser_caps (text : String) :
    (parse_jobs text).length ≤ 3 ∧
    (parse_jobs text).all (fun j => j.bullets.length ≤ 4) = true ∧
    (parse_education text).length ≤ 2 := by
  refine ⟨?_, ?_, ?_⟩
  · show ((jobsLoop ((pySplitlines text.data).map pyRStrip) 0 []).take 3).length ≤ 3
    exact List.length_take_le 3 _
  · rw [List.all_eq_true]
    intro j hj
    rw [decide_eq_true_eq]
    have hj' : j ∈ jobsLoop ((pySplitlines text.data).map pyRStrip) 0 [] :=
      List.take_subset 3 _ hj
    exact jobsLoop_bullets ((pySplitlines text.data).map pyRStrip).length _ 0 []
      (by omega) (by simp) j hj'
  · show ((eduLoop ((pySplitlines text.data).map pyStrip) []).take 2).length ≤ 2
    exact List.length_take_le 2 _

end ResumeApp
